import Mathlib

/-!
Verification of the iconsur icon pipeline (src/index.js).

Shallow embedding of the icon-generation pipeline:

* the JP2 planar-to-interleaved converter (`jp2Format.decode`),
* the icns sub-icon selection (`subIconBuffer`),
* the bitwise-AND masking scan,
* the adaptive policy selection (contain vs cover) and centering math.

JavaScript numbers appearing in exact arithmetic are modelled as `Nat`
(buffer indices, packed pixels) or `ℚ` (scale factors).  Node `Buffer`
cells are unsigned bytes, so writes truncate modulo 256 and reads past
the end yield `undefined`, which `|| 0` turns into 0; both are modelled
explicitly.
-/

namespace Iconsur

/-! ## Planar-to-interleaved converter (src/index.js lines 28-34) -/

/-- JavaScript `Math.round(i / 4)` for a natural `i`: JS rounds half toward
positive infinity, so `Math.round(i/4) = ⌊(i + 2) / 4⌋`. -/
def jsRound4 (i : Nat) : Nat := (i + 2) / 4

/-- The value `data.length / 4`, the length of one colour plane
(the JS float division is exact whenever the length is divisible by 4). -/
def planeSize (data : List Nat) : Nat := data.length / 4

/-- The loop body `rgbaBuffer[i] = data[(data.length / 4) * (i % 4) + Math.round(i / 4)] || 0`
from `jp2Format.decode`: an out-of-range read gives `undefined`, turned into 0
by `|| 0`; the `Buffer` write truncates to a byte. -/
def planarToInterleaved (data : List Nat) : List Nat :=
  (List.range data.length).map fun i =>
    (data.getD (planeSize data * (i % 4) + jsRound4 i) 0) % 256

/-- Plane `p` of a planar buffer, as a standalone list: samples
`data[p * planeSize .. p * planeSize + planeSize - 1]`. -/
def plane (data : List Nat) (p : Nat) : List Nat :=
  (data.drop (planeSize data * p)).take (planeSize data)

/-- Modelled from the spec (for comparison only): the conventional floor
deinterleave `output[i] = planes[i mod 4][⌊i / 4⌋]`, which the spec says is
NOT the mapping the converter uses. -/
def floorInterleaved (data : List Nat) : List Nat :=
  (List.range data.length).map fun i =>
    (data.getD (planeSize data * (i % 4) + i / 4) 0) % 256

/-! ## Container sub-icon selection (src/index.js lines 161-169)

`Object.entries(icns.parse(iconBuffer)).filter(([k]) => icns.isImageType(k))
 .map(([, v]) => v).sort((a, b) => b.length - a.length)[0]`

`Array.prototype.sort` is guaranteed stable, and the comparator
`(a, b) => b.length - a.length` orders by descending byte length; this is
modelled by a stable insertion sort with the same ordering.  The external
`icns.isImageType` tag predicate is kept abstract as a parameter. -/

/-- Stable descending-by-length insertion: `x` is placed before the first
element strictly shorter than it, so earlier-encountered entries stay ahead
of equal-length later ones. -/
def insertDesc (x : List Nat) : List (List Nat) → List (List Nat)
  | [] => [x]
  | y :: ys => if y.length ≤ x.length then x :: y :: ys else y :: insertDesc x ys

/-- Stable sort by descending payload length (model of the stable JS
`sort((a, b) => b.length - a.length)`). -/
def sortDesc : List (List Nat) → List (List Nat)
  | [] => []
  | x :: xs => insertDesc x (sortDesc xs)

/-- The largest payload length occurring in a list of payloads. -/
def maxLen (l : List (List Nat)) : Nat := l.foldr (fun a r => max a.length r) 0

/-- The payloads of the image-tagged container entries, in container order:
`entries.filter(([k]) => isImg(k)).map(([, v]) => v)`. -/
def imageEntries (isImg : String → Bool) (entries : List (String × List Nat)) :
    List (List Nat) :=
  (entries.filter fun e => isImg e.1).map fun e => e.2

/-- Definition of `subIconBuffer`: head of the image payloads sorted by descending length
(`undefined`, i.e. `none`, when there is no image-tagged entry). -/
def selectSubIcon (isImg : String → Bool) (entries : List (String × List Nat)) :
    Option (List Nat) :=
  (sortDesc (imageEntries isImg entries)).head?

/-- The `try { … icns.parse … } catch (e) { }` fallback of the `set`
command: when parsing throws (`parsed = none`) or no image entry is
selected, `iconBuffer` keeps its original contents. -/
def resolveIconBuffer (isImg : String → Bool) (orig : List Nat)
    (parsed : Option (List (String × List Nat))) : List Nat :=
  match parsed with
  | none => orig
  | some entries =>
    match selectSubIcon isImg entries with
    | some sub => sub
    | none => orig

/-! ## Raster images and the masking scan (src/index.js lines 194-199) -/

/-- A raster canvas: packed 32-bit RGBA pixel values addressed by
`(x, y)`; `pix` models `getPixelColor`. -/
@[ext]
structure Image where
  width : Nat
  height : Nat
  pix : Nat → Nat → Nat

/-- Jimp `setPixelColor(c, x, y)`: update a single coordinate. -/
def setPixelColor (img : Image) (c x y : Nat) : Image :=
  { img with pix := fun a b => if a = x ∧ b = y then c else img.pix a b }

/-- JavaScript `(a & b) >>> 0` on numbers holding unsigned 32-bit pixel
values: both operands are reduced to their low 32 bits, bitwise AND-ed,
and the result read back as an unsigned 32-bit value. -/
def jsAnd (a b : Nat) : Nat := (a % 2 ^ 32) &&& (b % 2 ^ 32)

/-- The coordinates visited by `image.scan(0, 0, w, h, …)`, row-major. -/
def coords (w h : Nat) : List (Nat × Nat) :=
  (List.range h).flatMap fun y => (List.range w).map fun x => (x, y)

/-- One step of the masking scan:
`image.setPixelColor((mask.getPixelColor(x, y) & image.getPixelColor(x, y)) >>> 0, x, y)`. -/
def scanMaskStep (mask img : Image) (xy : Nat × Nat) : Image :=
  setPixelColor img (jsAnd (mask.pix xy.1 xy.2) (img.pix xy.1 xy.2)) xy.1 xy.2

/-- The whole masking loop over the image's extent. -/
def applyMask (mask img : Image) : Image :=
  (coords img.width img.height).foldl (scanMaskStep mask) img

/-- A binary stencil: every mask pixel is all-0-bits or all-1-bits. -/
def IsStencil (mask : Image) : Prop :=
  ∀ x y, mask.pix x y = 0 ∨ mask.pix x y = 2 ^ 32 - 1

/-- Reading the icon (`Jimp.read`) at the start of the adaptive branch: a source whose bytes
cannot be decoded at all aborts the operation (`process.exit(1)`),
modelled as `Except.error`; the raster decoder itself is external and kept
abstract. -/
def readIcon (decode : List Nat → Option Image) (buf : List Nat) :
    Except Unit Image :=
  match decode buf with
  | some img => Except.ok img
  | none => Except.error ()

/-! ## Adaptive policy selection and centering (src/index.js lines 122-124,
180-190).  Scale factors are exact in the claims' arithmetic, so JavaScript
numbers are modelled as rationals. -/

/-- Source constant `const imageSize = 1024`. -/
def imageSize : Nat := 1024

/-- Source constant `const iconPadding = 100`. -/
def iconPadding : Nat := 100

/-- Source constant `const iconSize = imageSize - 2 * iconPadding` (= 824). -/
def iconSize : Nat := imageSize - 2 * iconPadding

/-- Modelled from the spec: Jimp's `hasAlpha()` (in `@jimp/core`, not under
src/) scans the source image and reports whether any pixel's alpha channel
is not fully opaque.  In the packed `0xRRGGBBAA` representation the alpha
channel is the low byte. -/
def hasAlphaB (img : Image) : Bool :=
  (coords img.width img.height).any fun xy => img.pix xy.1 xy.2 % 256 != 255

/-- The two aspect-preserving resize policies applied to the source icon:
`contain` (shrink-to-fit) and `cover` (fill-and-crop), with their target
width and height. -/
inductive FitPolicy where
  | contain : ℚ → ℚ → FitPolicy
  | cover : ℚ → ℚ → FitPolicy
deriving DecidableEq

/-- Source variable `originalIconScaleSize`: the value
`parseFloat(program.scale || '0.9')` in the has-alpha branch, `1` in the
opaque branch. -/
def originalIconScaleSize (img : Image) (scaleOpt : Option ℚ) : ℚ :=
  if hasAlphaB img then scaleOpt.getD (9 / 10) else 1

/-- The resize call chosen by the `set` command:
`contain(iconSize * scale, iconSize * scale)` when the source has alpha,
`cover(iconSize, iconSize)` when it is opaque. -/
def chosenPolicy (img : Image) (scaleOpt : Option ℚ) : FitPolicy :=
  if hasAlphaB img then
    FitPolicy.contain ((iconSize : ℚ) * scaleOpt.getD (9 / 10))
      ((iconSize : ℚ) * scaleOpt.getD (9 / 10))
  else
    FitPolicy.cover (iconSize : ℚ) (iconSize : ℚ)

/-- The target size of the scaled source: `iconSize * originalIconScaleSize`. -/
def scaledSize (img : Image) (scaleOpt : Option ℚ) : ℚ :=
  (iconSize : ℚ) * originalIconScaleSize img scaleOpt

/-- Source expression `iconSize * (1 - originalIconScaleSize) / 2`
(the `scalePosition` constant). -/
def scalePosition (img : Image) (scaleOpt : Option ℚ) : ℚ :=
  (iconSize : ℚ) * (1 - originalIconScaleSize img scaleOpt) / 2

/-- Modelled from the spec: Jimp's `composite(overlay, x, y)` (in
`@jimp/core`, not under src/) pastes `overlay` onto the base at the given
offset — each overlay pixel fully replaces the base pixel at its
coordinate, and overlay pixels falling outside the base keep the base's
dimensions unchanged (they are dropped). -/
def composite (base overlay : Image) (ox oy : Nat) : Image where
  width := base.width
  height := base.height
  pix := fun x y =>
    if ox ≤ x ∧ x < ox + overlay.width ∧ oy ≤ y ∧ y < oy + overlay.height then
      overlay.pix (x - ox) (y - oy)
    else
      base.pix x y

/-! ### Helper lemmas for the converter -/

theorem planar_getD (data : List Nat) (i : Nat) (hi : i < data.length) :
    (planarToInterleaved data).getD i 0
      = (data.getD (planeSize data * (i % 4) + jsRound4 i) 0) % 256 := by
  simp [planarToInterleaved, List.getD_eq_getElem?_getD, List.getElem?_range hi]

theorem plane_getD (data : List Nat) (p o : Nat) (ho : o < planeSize data) :
    (plane data p).getD o 0 = data.getD (planeSize data * p + o) 0 := by
  simp [plane, List.getD_eq_getElem?_getD, List.getElem?_take_of_lt ho,
    List.getElem?_drop]

theorem planeSize_eq (data : List Nat) (m : Nat) (hlen : data.length = 4 * m) :
    planeSize data = m := by
  rw [planeSize, hlen]
  omega

theorem getD_lt_256 (data : List Nat) (j : Nat) (hbytes : ∀ v ∈ data, v < 256) :
    data.getD j 0 < 256 := by
  rcases Nat.lt_or_ge j data.length with hj | hj
  · have : data[j]? = some data[j] := List.getElem?_eq_getElem hj
    rw [List.getD_eq_getElem?_getD, this]
    exact hbytes _ (List.getElem_mem hj)
  · rw [List.getD_eq_getElem?_getD, List.getElem?_eq_none hj]
    simp

/-- Claim C1: the converter maps output index `i` to plane `i % 4` and offset
`Math.round(i / 4)` (round half up), reading `planes[i % 4][round(i / 4)]`
whenever that offset is inside the plane; and the floor mapping
`planes[i % 4][⌊i / 4⌋]` is not the mapping used (they disagree on a
concrete buffer). -/
theorem planar_round_mapping (data : List Nat) (m : Nat)
    (hlen : data.length = 4 * m) (hbytes : ∀ v ∈ data, v < 256) :
    (∀ i, i < 4 * m → jsRound4 i < m →
        (planarToInterleaved data).getD i 0
          = (plane data (i % 4)).getD (jsRound4 i) 0)
    ∧ (∃ d : List Nat, planarToInterleaved d ≠ floorInterleaved d) := by
  have hsize := planeSize_eq data m hlen
  constructor
  · intro i hi ho
    rw [planar_getD data i (by omega),
      plane_getD data (i % 4) (jsRound4 i) (by omega)]
    exact Nat.mod_eq_of_lt (getD_lt_256 data _ hbytes)
  · refine ⟨[1, 2, 3, 4, 5, 6, 7, 8], by decide⟩

/-- Witness for C1 at the concrete buffer `[1,…,8]` (`m = 2`). -/
theorem planar_round_mapping_witness :
    (∀ i, i < 4 * 2 → jsRound4 i < 2 →
        (planarToInterleaved [1, 2, 3, 4, 5, 6, 7, 8]).getD i 0
          = (plane [1, 2, 3, 4, 5, 6, 7, 8] (i % 4)).getD (jsRound4 i) 0)
    ∧ (∃ d : List Nat, planarToInterleaved d ≠ floorInterleaved d) :=
  planar_round_mapping [1, 2, 3, 4, 5, 6, 7, 8] 2 (by decide) (by decide)

/-- Counterexample to claim C2: on the buffer `[1,…,8]` (planes of size 2),
at output index 6 the rounded offset `jsRound4 6 = 2` exceeds plane 2's
bounds (valid offsets 0 and 1), yet the converter writes 7 — the first
sample of plane 3 — rather than the claimed default 0. -/
theorem planar_default_counterexample :
    jsRound4 6 = 2
    ∧ planeSize [1, 2, 3, 4, 5, 6, 7, 8] = 2
    ∧ (planarToInterleaved [1, 2, 3, 4, 5, 6, 7, 8]).getD 6 0 = 7
    ∧ (plane [1, 2, 3, 4, 5, 6, 7, 8] 3).getD 0 0 = 7
    ∧ (7 : Nat) ≠ 0 := by
  decide

/-- Claim C2 (amended): the converter writes 0 only where the flat read
position `(L/4)·(i % 4) + round(i / 4)` runs past the whole buffer, which
happens exactly at the last index `i = L − 1`; at `i = L − 2`, where the
rounded offset also exceeds plane 2's bounds, it instead reads the first
sample of plane 3; at every index below `L − 2` the rounded offset stays
inside its plane. -/
theorem planar_default_zero_amended (data : List Nat) (m : Nat)
    (hlen : data.length = 4 * m) (hm : 0 < m) (hbytes : ∀ v ∈ data, v < 256) :
    (planarToInterleaved data).getD (4 * m - 1) 0 = 0
    ∧ (planarToInterleaved data).getD (4 * m - 2) 0 = (plane data 3).getD 0 0
    ∧ (∀ i, i < 4 * m - 2 → jsRound4 i < m) := by
  have hsize := planeSize_eq data m hlen
  refine ⟨?_, ?_, ?_⟩
  · rw [planar_getD data (4 * m - 1) (by omega)]
    have h1 : (4 * m - 1) % 4 = 3 := by omega
    have h2 : jsRound4 (4 * m - 1) = m := by unfold jsRound4; omega
    rw [h1, h2, hsize]
    have hidx : data.length ≤ m * 3 + m := by omega
    rw [List.getD_eq_getElem?_getD, List.getElem?_eq_none hidx]
    simp
  · rw [planar_getD data (4 * m - 2) (by omega),
      plane_getD data 3 0 (by omega)]
    have h1 : (4 * m - 2) % 4 = 2 := by omega
    have h2 : jsRound4 (4 * m - 2) = m := by unfold jsRound4; omega
    rw [h1, h2, hsize]
    have h3 : m * 2 + m = m * 3 + 0 := by omega
    rw [h3]
    exact Nat.mod_eq_of_lt (getD_lt_256 data _ hbytes)
  · intro i hi
    unfold jsRound4
    omega

/-- Witness for the amended C2 at the concrete buffer `[1,…,8]` (`m = 2`). -/
theorem planar_default_zero_amended_witness :
    (planarToInterleaved [1, 2, 3, 4, 5, 6, 7, 8]).getD (4 * 2 - 1) 0 = 0
    ∧ (planarToInterleaved [1, 2, 3, 4, 5, 6, 7, 8]).getD (4 * 2 - 2) 0
        = (plane [1, 2, 3, 4, 5, 6, 7, 8] 3).getD 0 0
    ∧ (∀ i, i < 4 * 2 - 2 → jsRound4 i < 2) :=
  planar_default_zero_amended [1, 2, 3, 4, 5, 6, 7, 8] 2 (by decide) (by decide)
    (by decide)

/-! ### Helper lemmas for the selection -/

theorem insertDesc_ne_nil (x : List Nat) (s : List (List Nat)) :
    insertDesc x s ≠ [] := by
  cases s with
  | nil => simp [insertDesc]
  | cons y ys =>
    simp only [insertDesc]
    split <;> simp

theorem sortDesc_eq_nil_iff (l : List (List Nat)) : sortDesc l = [] ↔ l = [] := by
  cases l with
  | nil => simp [sortDesc]
  | cons x xs => simp [sortDesc, insertDesc_ne_nil]

theorem maxLen_cons (x : List Nat) (xs : List (List Nat)) :
    maxLen (x :: xs) = max x.length (maxLen xs) := rfl

theorem length_le_maxLen {q : List Nat} {l : List (List Nat)} (h : q ∈ l) :
    q.length ≤ maxLen l := by
  induction l with
  | nil => cases h
  | cons x xs ih =>
    rw [maxLen_cons]
    rcases List.mem_cons.mp h with rfl | hmem
    · exact Nat.le_max_left _ _
    · exact Nat.le_trans (ih hmem) (Nat.le_max_right _ _)

theorem maxLen_mem {l : List (List Nat)} (h : l ≠ []) :
    ∃ a ∈ l, a.length = maxLen l := by
  induction l with
  | nil => exact absurd rfl h
  | cons x xs ih =>
    rw [maxLen_cons]
    cases xs with
    | nil => exact ⟨x, List.mem_cons_self .., by simp [maxLen]⟩
    | cons z zs =>
      obtain ⟨a, hmem, hlen⟩ := ih (by simp)
      rcases Nat.le_total (maxLen (z :: zs)) x.length with hle | hle
      · exact ⟨x, List.mem_cons_self .., (Nat.max_eq_left hle).symm⟩
      · exact ⟨a, List.mem_cons_of_mem _ hmem,
          hlen.trans (Nat.max_eq_right hle).symm⟩

theorem sortDesc_head (l : List (List Nat)) :
    (sortDesc l).head? = l.find? fun q => q.length == maxLen l := by
  induction l with
  | nil => rfl
  | cons x xs ih =>
    have hcons := maxLen_cons x xs
    cases hs : sortDesc xs with
    | nil =>
      have hxs : xs = [] := (sortDesc_eq_nil_iff xs).mp hs
      subst hxs
      show (insertDesc x []).head? = _
      simp [insertDesc, maxLen, List.find?]
    | cons y ys =>
      rw [hs] at ih
      have ih' : xs.find? (fun q => q.length == maxLen xs) = some y := by
        rw [← ih]; rfl
      have hylen : y.length = maxLen xs := by
        simpa using List.find?_some ih'
      have hunfold : sortDesc (x :: xs) = insertDesc x (sortDesc xs) := rfl
      rw [hunfold, hs]
      unfold insertDesc
      split
      · rename_i hxy
        have hmax : maxLen (x :: xs) = x.length := by
          rw [hcons]; exact Nat.max_eq_left (hylen ▸ hxy)
        rw [hmax]
        simp
      · rename_i hxy
        have hlt : x.length < y.length := Nat.lt_of_not_le hxy
        have hmax : maxLen (x :: xs) = maxLen xs := by
          rw [hcons]; exact Nat.max_eq_right (by omega)
        rw [hmax, List.find?_cons_of_neg _ (by simp; omega), ← ih]
        simp

set_option maxRecDepth 8000 in
/-- Claim C3: `subIconBuffer` selects, among the image-tagged entries, one
with the largest raw payload byte length, and among equal-length candidates
the first-encountered one (it equals `find?` of the maximal length over the
entries in container order); in particular two image entries of payload
lengths 100 and 500 select the 500-byte one in either order. -/
theorem select_largest (isImg : String → Bool)
    (entries : List (String × List Nat)) :
    (imageEntries isImg entries ≠ [] →
      ∃ p, selectSubIcon isImg entries = some p
        ∧ p ∈ imageEntries isImg entries
        ∧ (∀ q ∈ imageEntries isImg entries, q.length ≤ p.length)
        ∧ selectSubIcon isImg entries
            = (imageEntries isImg entries).find?
                fun q => q.length == maxLen (imageEntries isImg entries))
    ∧ selectSubIcon (fun _ => true)
        [("ic07", List.replicate 100 1), ("ic08", List.replicate 500 2)]
        = some (List.replicate 500 2)
    ∧ selectSubIcon (fun _ => true)
        [("ic08", List.replicate 500 2), ("ic07", List.replicate 100 1)]
        = some (List.replicate 500 2) := by
  refine ⟨?_, by decide, by decide⟩
  intro hne
  have hhead : selectSubIcon isImg entries
      = (imageEntries isImg entries).find?
          (fun q => q.length == maxLen (imageEntries isImg entries)) :=
    sortDesc_head (imageEntries isImg entries)
  obtain ⟨a, hmem, _⟩ := maxLen_mem hne
  cases hfind : (imageEntries isImg entries).find?
      (fun q => q.length == maxLen (imageEntries isImg entries)) with
  | none =>
    exact absurd (by simpa using List.find?_eq_none.mp hfind a hmem) (by simp [*])
  | some p =>
    have hp : p.length = maxLen (imageEntries isImg entries) := by
      simpa using List.find?_some hfind
    refine ⟨p, hhead.trans hfind, List.mem_of_find?_eq_some hfind, ?_,
      hhead.trans hfind⟩
    intro q hq
    exact hp ▸ length_le_maxLen hq

/-- Witness for C3 at a single-entry container. -/
theorem select_largest_witness :
    ∃ p, selectSubIcon (fun _ => true) [("ic07", [3])] = some p
      ∧ p ∈ imageEntries (fun _ => true) [("ic07", [3])]
      ∧ (∀ q ∈ imageEntries (fun _ => true) [("ic07", [3])],
          q.length ≤ p.length)
      ∧ selectSubIcon (fun _ => true) [("ic07", [3])]
          = (imageEntries (fun _ => true) [("ic07", [3])]).find?
              fun q => q.length
                == maxLen (imageEntries (fun _ => true) [("ic07", [3])]) :=
  (select_largest (fun _ => true) [("ic07", [3])]).1 (by decide)

/-! ### Helper lemmas for the masking scan -/

theorem mem_coords {w h x y : Nat} : (x, y) ∈ coords w h ↔ x < w ∧ y < h := by
  simp only [coords, List.mem_flatMap, List.mem_map, List.mem_range,
    Prod.mk.injEq]
  constructor
  · rintro ⟨a, ha, b, hb, rfl, rfl⟩
    exact ⟨hb, ha⟩
  · rintro ⟨hx, hy⟩
    exact ⟨y, hy, x, hx, rfl, rfl⟩

theorem coords_nodup (w h : Nat) : (coords w h).Nodup := by
  rw [coords, List.nodup_flatMap]
  constructor
  · intro y _
    have hinj : Function.Injective (fun x : Nat => (x, y)) := fun a b hab => by
      simpa using congrArg Prod.fst hab
    exact List.Nodup.map hinj (List.nodup_range w)
  · refine (List.nodup_range h).imp ?_
    intro a b hne p hp hq
    simp only [List.mem_map, List.mem_range] at hp hq
    obtain ⟨u, _, rfl⟩ := hp
    obtain ⟨v, _, hvq⟩ := hq
    have hab : b = a := by simpa using congrArg Prod.snd hvq
    exact hne hab.symm

theorem setPixelColor_pix_self (img : Image) (c x y : Nat) :
    (setPixelColor img c x y).pix x y = c := by
  simp [setPixelColor]

theorem setPixelColor_pix_ne (img : Image) (c x y a b : Nat)
    (h : ¬(a = x ∧ b = y)) :
    (setPixelColor img c x y).pix a b = img.pix a b := by
  simp [setPixelColor, h]

theorem foldl_scan_width (mask : Image) (L : List (Nat × Nat)) (img : Image) :
    (L.foldl (scanMaskStep mask) img).width = img.width := by
  induction L generalizing img with
  | nil => rfl
  | cons p ps ih => exact ih _

theorem foldl_scan_height (mask : Image) (L : List (Nat × Nat)) (img : Image) :
    (L.foldl (scanMaskStep mask) img).height = img.height := by
  induction L generalizing img with
  | nil => rfl
  | cons p ps ih => exact ih _

theorem foldl_scan_pix_not_mem (mask : Image) (L : List (Nat × Nat))
    (img : Image) (x y : Nat) (h : (x, y) ∉ L) :
    (L.foldl (scanMaskStep mask) img).pix x y = img.pix x y := by
  induction L generalizing img with
  | nil => rfl
  | cons p ps ih =>
    obtain ⟨px, py⟩ := p
    rw [List.foldl_cons, ih _ fun hm => h (List.mem_cons_of_mem _ hm)]
    exact setPixelColor_pix_ne img _ px py x y fun hc =>
      h (by rw [hc.1, hc.2]; exact List.mem_cons_self ..)

theorem applyMask_width (mask img : Image) :
    (applyMask mask img).width = img.width :=
  foldl_scan_width mask _ img

theorem applyMask_height (mask img : Image) :
    (applyMask mask img).height = img.height :=
  foldl_scan_height mask _ img

theorem applyMask_pix (mask img : Image) (x y : Nat)
    (hx : x < img.width) (hy : y < img.height) :
    (applyMask mask img).pix x y = jsAnd (mask.pix x y) (img.pix x y) := by
  unfold applyMask
  have hmem : (x, y) ∈ coords img.width img.height := mem_coords.mpr ⟨hx, hy⟩
  obtain ⟨s, t, hst⟩ := List.append_of_mem hmem
  have hnodup := coords_nodup img.width img.height
  rw [hst] at hnodup
  rw [hst, List.foldl_append, List.foldl_cons]
  have hsplit := List.nodup_append.mp hnodup
  have hnt : (x, y) ∉ t := (List.nodup_cons.mp hsplit.2.1).1
  have hns : (x, y) ∉ s := fun hms =>
    hsplit.2.2 hms (List.mem_cons_self ..)
  rw [foldl_scan_pix_not_mem mask t _ x y hnt, scanMaskStep,
    setPixelColor_pix_self, foldl_scan_pix_not_mem mask s img x y hns]

theorem applyMask_pix_out (mask img : Image) (x y : Nat)
    (h : ¬(x < img.width ∧ y < img.height)) :
    (applyMask mask img).pix x y = img.pix x y :=
  foldl_scan_pix_not_mem mask _ img x y fun hm => h (mem_coords.mp hm)

theorem jsAnd_lt (a b : Nat) : jsAnd a b < 2 ^ 32 :=
  Nat.and_lt_two_pow _ (Nat.mod_lt _ (by norm_num))

theorem jsAnd_eq_of_lt {a b : Nat} (ha : a < 2 ^ 32) (hb : b < 2 ^ 32) :
    jsAnd a b = a &&& b := by
  rw [jsAnd, Nat.mod_eq_of_lt ha, Nat.mod_eq_of_lt hb]

theorem jsAnd_absorb (m c : Nat) : jsAnd m (jsAnd m c) = jsAnd m c := by
  rw [jsAnd, Nat.mod_eq_of_lt (jsAnd_lt m c), jsAnd, ← Nat.and_assoc,
    Nat.and_self]

theorem jsAnd_masked (m c : Nat) : jsAnd m c &&& m = jsAnd m c := by
  apply Nat.eq_of_testBit_eq
  intro i
  simp only [jsAnd, Nat.testBit_and, Nat.testBit_mod_two_pow]
  cases m.testBit i <;> cases c.testBit i <;> simp

/-- Claim C4: after the masking scan, each in-bounds output pixel equals
the bitwise AND of the mask's packed pixel and the assembled canvas's
packed pixel at the same coordinate. -/
theorem mask_pointwise_and (mask img : Image) (x y : Nat)
    (hx : x < img.width) (hy : y < img.height)
    (hm : mask.pix x y < 2 ^ 32) (hc : img.pix x y < 2 ^ 32) :
    (applyMask mask img).pix x y = mask.pix x y &&& img.pix x y := by
  rw [applyMask_pix mask img x y hx hy, jsAnd_eq_of_lt hm hc]

/-- Witness for C4 on concrete 1×1 images. -/
theorem mask_pointwise_and_witness :
    (applyMask ⟨1, 1, fun _ _ => 4042322160⟩ ⟨1, 1, fun _ _ => 255⟩).pix 0 0
      = 4042322160 &&& 255 :=
  mask_pointwise_and ⟨1, 1, fun _ _ => 4042322160⟩ ⟨1, 1, fun _ _ => 255⟩ 0 0
    (by decide) (by decide) (by decide) (by decide)

/-- Claim C5: for a binary stencil mask, applying the bitwise-AND mask
twice yields the same canvas as applying it once. -/
theorem mask_idempotent (mask img : Image) (_hst : IsStencil mask) :
    applyMask mask (applyMask mask img) = applyMask mask img := by
  have hw : (applyMask mask img).width = img.width := applyMask_width ..
  have hh : (applyMask mask img).height = img.height := applyMask_height ..
  apply Image.ext
  · simp [applyMask_width]
  · simp [applyMask_height]
  · funext x y
    by_cases hin : x < img.width ∧ y < img.height
    · rw [applyMask_pix mask _ x y (hw ▸ hin.1) (hh ▸ hin.2),
        applyMask_pix mask img x y hin.1 hin.2, jsAnd_absorb]
    · rw [applyMask_pix_out mask _ x y (by rw [hw, hh]; exact hin),
        applyMask_pix_out mask img x y hin]

/-- Witness for C5 with an all-1-bits 1×1 stencil. -/
theorem mask_idempotent_witness :
    IsStencil ⟨1, 1, fun _ _ => 2 ^ 32 - 1⟩
    ∧ applyMask ⟨1, 1, fun _ _ => 2 ^ 32 - 1⟩
        (applyMask ⟨1, 1, fun _ _ => 2 ^ 32 - 1⟩ ⟨1, 1, fun _ _ => 7⟩)
      = applyMask ⟨1, 1, fun _ _ => 2 ^ 32 - 1⟩ ⟨1, 1, fun _ _ => 7⟩ :=
  ⟨fun _ _ => Or.inr rfl,
    mask_idempotent ⟨1, 1, fun _ _ => 2 ^ 32 - 1⟩ ⟨1, 1, fun _ _ => 7⟩
      fun _ _ => Or.inr rfl⟩

/-- Claim C10: after the masking pass every in-bounds output pixel `p`
satisfies `p AND maskPixel = p` and `p < 2^32`, for every canvas and every
mask (no stencil assumption). -/
theorem mask_invariant (mask img : Image) (x y : Nat)
    (hx : x < img.width) (hy : y < img.height) :
    (applyMask mask img).pix x y &&& mask.pix x y = (applyMask mask img).pix x y
    ∧ (applyMask mask img).pix x y < 2 ^ 32 := by
  rw [applyMask_pix mask img x y hx hy]
  exact ⟨jsAnd_masked _ _, jsAnd_lt _ _⟩

/-- Witness for C10 on concrete 1×1 images with a graded (non-stencil)
mask pixel. -/
theorem mask_invariant_witness :
    (applyMask ⟨1, 1, fun _ _ => 305419896⟩ ⟨1, 1, fun _ _ => 999999⟩).pix 0 0
        &&& 305419896
      = (applyMask ⟨1, 1, fun _ _ => 305419896⟩ ⟨1, 1, fun _ _ => 999999⟩).pix 0 0
    ∧ (applyMask ⟨1, 1, fun _ _ => 305419896⟩ ⟨1, 1, fun _ _ => 999999⟩).pix 0 0
        < 2 ^ 32 :=
  mask_invariant ⟨1, 1, fun _ _ => 305419896⟩ ⟨1, 1, fun _ _ => 999999⟩ 0 0
    (by decide) (by decide)

/-! ### Policy selection, centering, composition, fallback -/

theorem hasAlphaB_iff (img : Image) :
    hasAlphaB img = true
      ↔ ∃ x, x < img.width ∧ ∃ y, y < img.height ∧ img.pix x y % 256 ≠ 255 := by
  rw [hasAlphaB, List.any_eq_true]
  constructor
  · rintro ⟨⟨x, y⟩, hmem, hp⟩
    obtain ⟨hx, hy⟩ := mem_coords.mp hmem
    exact ⟨x, hx, y, hy, by simpa using hp⟩
  · rintro ⟨x, hx, y, hy, hp⟩
    exact ⟨(x, y), mem_coords.mpr ⟨hx, hy⟩, by simpa using hp⟩

/-- Claim C6: if any pixel of the source has a not-fully-opaque alpha
channel, the source is resized with `contain` (shrink-to-fit) to
`iconSize × scale` where the scale defaults to 0.9; a uniformly opaque
source is resized with `cover` (fill-and-crop) to exactly `iconSize`
(= 824, the icon area). -/
theorem policy_selection (img : Image) (scaleOpt : Option ℚ) :
    ((∃ x, x < img.width ∧ ∃ y, y < img.height ∧ img.pix x y % 256 ≠ 255) →
      chosenPolicy img scaleOpt
        = FitPolicy.contain ((iconSize : ℚ) * scaleOpt.getD (9 / 10))
            ((iconSize : ℚ) * scaleOpt.getD (9 / 10)))
    ∧ ((∀ x, x < img.width → ∀ y, y < img.height → img.pix x y % 256 = 255) →
      chosenPolicy img scaleOpt = FitPolicy.cover (iconSize : ℚ) (iconSize : ℚ))
    ∧ (iconSize : ℚ) = 824
    ∧ chosenPolicy img none = chosenPolicy img (some (9 / 10)) := by
  refine ⟨?_, ?_, by norm_num [iconSize, imageSize, iconPadding],
    by simp [chosenPolicy]⟩
  · intro hex
    have halpha : hasAlphaB img = true := (hasAlphaB_iff img).mpr hex
    rw [chosenPolicy, halpha]
    simp
  · intro hall
    have halpha : hasAlphaB img = false := by
      cases h : hasAlphaB img
      · rfl
      · obtain ⟨x, hx, y, hy, hp⟩ := (hasAlphaB_iff img).mp h
        exact absurd (hall x hx y hy) hp
    rw [chosenPolicy, halpha]
    simp

/-- Witness for C6: a 1×1 transparent source gets `contain`, a 1×1 opaque
source gets `cover`. -/
theorem policy_selection_witness :
    chosenPolicy ⟨1, 1, fun _ _ => 0⟩ none
      = FitPolicy.contain ((iconSize : ℚ) * (none : Option ℚ).getD (9 / 10))
          ((iconSize : ℚ) * (none : Option ℚ).getD (9 / 10))
    ∧ chosenPolicy ⟨1, 1, fun _ _ => 255⟩ none
      = FitPolicy.cover (iconSize : ℚ) (iconSize : ℚ) :=
  ⟨(policy_selection ⟨1, 1, fun _ _ => 0⟩ none).1
      ⟨0, by decide, 0, by decide, by decide⟩,
    (policy_selection ⟨1, 1, fun _ _ => 255⟩ none).2.1 fun _ _ _ _ => rfl⟩

/-- Claim C7: the compositing offset `scalePosition` equals
`(iconSize − scaledSize) / 2` (symmetric padding), and it is 0 whenever
the fill-and-crop (`cover`) policy was chosen. -/
theorem centering_offset (img : Image) (scaleOpt : Option ℚ) :
    scalePosition img scaleOpt = ((iconSize : ℚ) - scaledSize img scaleOpt) / 2
    ∧ (chosenPolicy img scaleOpt
          = FitPolicy.cover (iconSize : ℚ) (iconSize : ℚ) →
        scalePosition img scaleOpt = 0) := by
  constructor
  · rw [scalePosition, scaledSize]
    ring
  · intro hcov
    cases h : hasAlphaB img
    · rw [scalePosition, originalIconScaleSize, h]
      norm_num
    · rw [chosenPolicy, h] at hcov
      simp at hcov

/-- Witness for C7 with a 1×1 opaque source (cover policy). -/
theorem centering_offset_witness :
    scalePosition ⟨1, 1, fun _ _ => 255⟩ none
      = ((iconSize : ℚ) - scaledSize ⟨1, 1, fun _ _ => 255⟩ none) / 2
    ∧ scalePosition ⟨1, 1, fun _ _ => 255⟩ none = 0 :=
  ⟨(centering_offset ⟨1, 1, fun _ _ => 255⟩ none).1,
    (centering_offset ⟨1, 1, fun _ _ => 255⟩ none).2 rfl⟩

/-- Claim C8: `composite(base, overlay, ox, oy)` keeps the base's
dimensions (overlay pixels beyond the base's bounds are dropped), makes
every pixel covered by the overlay equal to the overlay pixel (straight
overwrite, no alpha blending), and leaves every other base pixel
untouched. -/
theorem composite_overwrite (base overlay : Image) (ox oy : Nat) :
    (composite base overlay ox oy).width = base.width
    ∧ (composite base overlay ox oy).height = base.height
    ∧ (∀ x y, ox ≤ x → x < ox + overlay.width → oy ≤ y →
        y < oy + overlay.height →
        (composite base overlay ox oy).pix x y = overlay.pix (x - ox) (y - oy))
    ∧ (∀ x y,
        ¬(ox ≤ x ∧ x < ox + overlay.width ∧ oy ≤ y ∧ y < oy + overlay.height) →
        (composite base overlay ox oy).pix x y = base.pix x y) := by
  refine ⟨rfl, rfl, ?_, ?_⟩
  · intro x y h1 h2 h3 h4
    simp [composite, h1, h2, h3, h4]
  · intro x y h
    simp only [composite]
    rw [if_neg h]

/-- Witness for C8: a 1×1 overlay pasted at (1, 1) on a 2×2 base. -/
theorem composite_overwrite_witness :
    (composite ⟨2, 2, fun _ _ => 5⟩ ⟨1, 1, fun _ _ => 9⟩ 1 1).pix 1 1
      = Image.pix ⟨1, 1, fun _ _ => 9⟩ 0 0
    ∧ (composite ⟨2, 2, fun _ _ => 5⟩ ⟨1, 1, fun _ _ => 9⟩ 1 1).pix 0 0
      = Image.pix ⟨2, 2, fun _ _ => 5⟩ 0 0 :=
  ⟨(composite_overwrite ⟨2, 2, fun _ _ => 5⟩ ⟨1, 1, fun _ _ => 9⟩ 1 1).2.2.1
      1 1 (by decide) (by decide) (by decide) (by decide),
    (composite_overwrite ⟨2, 2, fun _ _ => 5⟩ ⟨1, 1, fun _ _ => 9⟩ 1 1).2.2.2
      0 0 (by decide)⟩

/-- Claim C9: when the container cannot be parsed (`parsed = none`) or has
no image-tagged entry, the original source bytes are used unchanged as the
decode input and the pipeline proceeds; a source that cannot be decoded at
all makes the operation abort (error). -/
theorem fallback_semantics (isImg : String → Bool) (orig : List Nat)
    (decode : List Nat → Option Image)
    (entries : List (String × List Nat)) :
    readIcon decode (resolveIconBuffer isImg orig none) = readIcon decode orig
    ∧ (imageEntries isImg entries = [] →
        readIcon decode (resolveIconBuffer isImg orig (some entries))
          = readIcon decode orig)
    ∧ (∀ buf, decode buf = none → readIcon decode buf = Except.error ())
    ∧ (∀ buf img, decode buf = some img → readIcon decode buf = Except.ok img) := by
  refine ⟨rfl, ?_, ?_, ?_⟩
  · intro h
    rw [resolveIconBuffer, selectSubIcon, h]
    rfl
  · intro buf h
    rw [readIcon, h]
  · intro buf img h
    rw [readIcon, h]

/-- Witness for C9 with a metadata-only container and a failing decoder. -/
theorem fallback_semantics_witness :
    readIcon (fun _ => none)
        (resolveIconBuffer (fun _ => false) [1, 2] none)
      = readIcon (fun _ => none) [1, 2]
    ∧ readIcon (fun _ => none)
        (resolveIconBuffer (fun _ => false) [1, 2] (some [("TOC ", [5])]))
      = readIcon (fun _ => none) [1, 2]
    ∧ readIcon (fun _ => none) [9] = Except.error ()
    ∧ readIcon (fun _ => some ⟨1, 1, fun _ _ => 0⟩) [9]
      = Except.ok ⟨1, 1, fun _ _ => 0⟩ :=
  ⟨(fallback_semantics (fun _ => false) [1, 2] (fun _ => none)
      [("TOC ", [5])]).1,
    (fallback_semantics (fun _ => false) [1, 2] (fun _ => none)
      [("TOC ", [5])]).2.1 (by decide),
    (fallback_semantics (fun _ => false) [1, 2] (fun _ => none)
      [("TOC ", [5])]).2.2.1 [9] rfl,
    (fallback_semantics (fun _ => false) [1, 2]
      (fun _ => some ⟨1, 1, fun _ _ => 0⟩) [("TOC ", [5])]).2.2.2 [9]
      ⟨1, 1, fun _ _ => 0⟩ rfl⟩

end Iconsur
